import Mathlib

/-!
# MSSQLDecryptor: the decryption pipeline of `main.go`

A shallow embedding of `getObjectID`, `getDbFamilyGUID`, `decryptObject` and the
pipeline at the end of `main`, together with the library routines they call:

* `encoding/binary`  : `LittleEndian.PutUint32`, `LittleEndian.PutUint16`
* `crypto/sha1`      : `sha1.Sum` (FIPS 180-4, laid out like `blockGeneric`)
* `crypto/rc4`       : `rc4.NewCipher`, `(*Cipher).XORKeyStream`
* `unicode/utf8`, `unicode/utf16` : `RuneLen`, `EncodeRune`, `IsSurrogate`, `DecodeRune`
* `golang.org/x/text/encoding/unicode` : the UTF-16 decoder (`utf16Decoder.Transform`,
  driven by `(*encoding.Decoder).Bytes`), release v0.3.3 and later.

Conventions: a Go `byte` is a `Nat` below 256, a `uint16` a `Nat` below `2^16`, a
`uint32` a `Nat` below `2^32`; arithmetic that can wrap carries an explicit `%`.
A Go `[]byte` is a `List Nat`; a Go `(T, error)` result is `Except Error T`.
-/

namespace MSSQLDecryptor

/-! ## Errors -/

/-- The `error` values that can flow through the pipeline. -/
inductive Error where
  /-- an error reported by `database/sql` (`row.Err()` or `row.Scan`), e.g. `sql.ErrNoRows` -/
  | driver (msg : String)
  /-- Go `errors.New("object name invalid or not found")` in `getObjectID` -/
  | objectNotFound
  /-- Go `rc4.KeySizeError(k)` -/
  | keySize (k : Nat)
  /-- Go `unicode.ErrMissingBOM` -/
  | missingBOM
  deriving DecidableEq, Repr

/-! ## encoding/binary -/

/-- Go `binary.LittleEndian.PutUint32(b, v)`: the four bytes written to `b[0..3]`. -/
def PutUint32 (v : Nat) : List Nat :=
  [v % 256, (v >>> 8) % 256, (v >>> 16) % 256, (v >>> 24) % 256]

/-- Go `binary.LittleEndian.PutUint16(b, v)`: the two bytes written to `b[0..1]`. -/
def PutUint16 (v : Nat) : List Nat :=
  [v % 256, (v >>> 8) % 256]

/-- The Go builtin `copy(dst, src)`: overwrites the first `min (len dst) (len src)`
elements of `dst` with those of `src`, leaving the rest of `dst` untouched. -/
def copy (dst src : List Nat) : List Nat :=
  src.take dst.length ++ dst.drop (min dst.length src.length)

/-- Lines 69-72 of `decryptObject`: the buffer `key` after
`make([]byte, 16+4+2)`, `copy(key[:16], guid)`, `PutUint32(key[16:20], id)` and
`PutUint16(key[20:22], subobjid)`. -/
def keyBuffer (guid : List Nat) (id subobjid : Nat) : List Nat :=
  let key := List.replicate (16 + 4 + 2) 0
  let key := copy (key.take 16) guid ++ key.drop 16
  let key := key.take 16 ++ PutUint32 id ++ key.drop 20
  let key := key.take 20 ++ PutUint16 subobjid ++ key.drop 22
  key

/-! ## crypto/sha1 -/

/-- Go `bits.RotateLeft32(x, k)` for `0 < k < 32`. -/
def RotateLeft32 (x k : Nat) : Nat :=
  ((x <<< k) % 4294967296) ||| (x >>> (32 - k))

/-- Wrapping `uint32` addition. -/
def add32 (a b : Nat) : Nat := (a + b) % 4294967296

/-- The `uint32` complement `^b`. -/
def not32 (b : Nat) : Nat := b ^^^ 4294967295

/-- The chaining value `dig.h` of a SHA-1 digest. -/
structure Digest where
  h0 : Nat
  h1 : Nat
  h2 : Nat
  h3 : Nat
  h4 : Nat
  deriving DecidableEq, Repr

/-- The initial chaining value set by `(*digest).Reset`. -/
def Digest.init : Digest :=
  ⟨0x67452301, 0xEFCDAB89, 0x98BADCFE, 0x10325476, 0xC3D2E1F0⟩

/-- The working variables of one block: the 16-word circular schedule `w` and `a..e`. -/
structure Work where
  w : List Nat
  a : Nat
  b : Nat
  c : Nat
  d : Nat
  e : Nat

/-- Round `i` (0..79) of `blockGeneric`: the five consecutive `for` loops of the Go
code differ only in the schedule update (from round 16 on), the function `f` and
the constant `K`. -/
def round (st : Work) (i : Nat) : Work :=
  let w :=
    if i < 16 then st.w
    else
      let tmp := st.w.getD ((i - 3) &&& 0xf) 0 ^^^ st.w.getD ((i - 8) &&& 0xf) 0
        ^^^ st.w.getD ((i - 14) &&& 0xf) 0 ^^^ st.w.getD (i &&& 0xf) 0
      st.w.set (i &&& 0xf) (RotateLeft32 tmp 1)
  let f :=
    if i < 20 then (st.b &&& st.c) ||| (not32 st.b &&& st.d)
    else if i < 40 then st.b ^^^ st.c ^^^ st.d
    else if i < 60 then ((st.b ||| st.c) &&& st.d) ||| (st.b &&& st.c)
    else st.b ^^^ st.c ^^^ st.d
  let K :=
    if i < 20 then 0x5A827999
    else if i < 40 then 0x6ED9EBA1
    else if i < 60 then 0x8F1BBCDC
    else 0xCA62C1D6
  let t := add32 (add32 (add32 (add32 (RotateLeft32 st.a 5) f) st.e) (w.getD (i &&& 0xf) 0)) K
  ⟨w, t, st.a, RotateLeft32 st.b 30, st.c, st.d⟩

/-- The big-endian words `w[0..15]` read from a 64-byte chunk. -/
def loadWords : Nat → List Nat → List Nat
  | 0, _ => []
  | n + 1, p =>
    ((p.getD 0 0 <<< 24) ||| (p.getD 1 0 <<< 16) ||| (p.getD 2 0 <<< 8) ||| p.getD 3 0)
      :: loadWords n (p.drop 4)

/-- One iteration of the outer loop of `blockGeneric` on the 64-byte chunk `p`. -/
def block (h : Digest) (p : List Nat) : Digest :=
  let st := (List.range 80).foldl round ⟨loadWords 16 p, h.h0, h.h1, h.h2, h.h3, h.h4⟩
  ⟨add32 h.h0 st.a, add32 h.h1 st.b, add32 h.h2 st.c, add32 h.h3 st.d, add32 h.h4 st.e⟩

/-- The loop `for len(p) >= chunk { ...; p = p[chunk:] }` of `blockGeneric`, run for the
`n = len(p) / 64` iterations it makes. -/
def blockGeneric : Nat → Digest → List Nat → Digest
  | 0, h, _ => h
  | n + 1, h, p => blockGeneric n (block h (p.take 64)) (p.drop 64)

/-- Go `byteorder.BePutUint64`. -/
def BePutUint64 (v : Nat) : List Nat :=
  [(v >>> 56) % 256, (v >>> 48) % 256, (v >>> 40) % 256, (v >>> 32) % 256,
   (v >>> 24) % 256, (v >>> 16) % 256, (v >>> 8) % 256, v % 256]

/-- Go `byteorder.BePutUint32`. -/
def BePutUint32 (v : Nat) : List Nat :=
  [(v >>> 24) % 256, (v >>> 16) % 256, (v >>> 8) % 256, v % 256]

/-- The padding written by `(*digest).checkSum` for a message of `len` bytes: a `0x80`
byte, zeros up to 56 bytes mod 64, and the bit length as a big-endian `uint64`. -/
def padding (len : Nat) : List Nat :=
  let t := if len % 64 < 56 then 56 - len % 64 else 64 + 56 - len % 64
  (0x80 :: List.replicate (t - 1) 0) ++ BePutUint64 ((len <<< 3) % 18446744073709551616)

/-- Go `sha1.Sum(data)`: the 20-byte digest. -/
def sha1Sum (data : List Nat) : List Nat :=
  let p := data ++ padding data.length
  let d := blockGeneric (p.length / 64) Digest.init p
  BePutUint32 d.h0 ++ BePutUint32 d.h1 ++ BePutUint32 d.h2 ++ BePutUint32 d.h3
    ++ BePutUint32 d.h4

/-! ## crypto/rc4 -/

/-- Go `rc4.Cipher`: the permutation `s` and the two 8-bit indices `i`, `j`. -/
structure Cipher where
  s : List Nat
  i : Nat
  j : Nat
  deriving DecidableEq, Repr

/-- One iteration of the key-scheduling loop of `NewCipher`:
`j += uint8(c.s[i]) + key[i%k]; c.s[i], c.s[j] = c.s[j], c.s[i]`. -/
def ksaStep (key : List Nat) (sj : List Nat × Nat) (i : Nat) : List Nat × Nat :=
  let s := sj.1
  let j := (sj.2 + (s.getD i 0 % 256 + key.getD (i % key.length) 0) % 256) % 256
  ((s.set i (s.getD j 0)).set j (s.getD i 0), j)

/-- Go `rc4.NewCipher(key)`. -/
def NewCipher (key : List Nat) : Except Error Cipher :=
  let k := key.length
  if k < 1 ∨ k > 256 then .error (.keySize k)
  else
    let sj := (List.range 256).foldl (ksaStep key) (List.range 256, 0)
    .ok ⟨sj.1, 0, 0⟩

/-- The body of the loop `for k, v := range src` of `XORKeyStream`, run over what is
left of `src` from index `k` on; returns the final `dst` and cipher state. -/
def xorLoop (s : List Nat) (i j : Nat) (k : Nat) (dst : List Nat) :
    List Nat → List Nat × Cipher
  | [] => (dst, ⟨s, i, j⟩)
  | v :: rest =>
    let i := (i + 1) % 256
    let x := s.getD i 0
    let j := (j + x % 256) % 256
    let y := s.getD j 0
    let s := (s.set i y).set j x
    xorLoop s i j (k + 1) (dst.set k (v ^^^ (s.getD ((x + y) % 256) 0 % 256))) rest

/-- Go `c.XORKeyStream(dst, src)` for `len(dst) >= len(src)`: the contents of `dst`
afterwards and the advanced cipher. -/
def XORKeyStream (c : Cipher) (dst src : List Nat) : List Nat × Cipher :=
  if src.length = 0 then (dst, c)
  else xorLoop c.s c.i c.j 0 dst src

/-! ## unicode/utf8 and unicode/utf16 -/

/-- Go `utf8.RuneError`, also the `utf16` `replacementChar`: U+FFFD. -/
def RuneError : Nat := 0xFFFD

/-- Go `utf8.RuneLen(r)` for a non-negative rune: the number of bytes of its UTF-8
encoding, or `-1` for a surrogate or a value above `utf8.MaxRune`. -/
def RuneLen (r : Nat) : Int :=
  if r ≤ 0x7F then 1
  else if r ≤ 0x7FF then 2
  else if 0xD800 ≤ r ∧ r ≤ 0xDFFF then -1
  else if r ≤ 0xFFFF then 3
  else if r ≤ 0x10FFFF then 4
  else -1

/-- Go `utf8.EncodeRune(p, r)` for a non-negative rune: the bytes written to `p`. -/
def EncodeRune (r : Nat) : List Nat :=
  if r ≤ 0x7F then [r % 256]
  else if r ≤ 0x7FF then
    [0xC0 ||| ((r >>> 6) % 256), 0x80 ||| ((r % 256) &&& 0x3F)]
  else if r > 0x10FFFF ∨ (0xD800 ≤ r ∧ r ≤ 0xDFFF) then
    [0xE0 ||| ((RuneError >>> 12) % 256), 0x80 ||| (((RuneError >>> 6) % 256) &&& 0x3F),
     0x80 ||| ((RuneError % 256) &&& 0x3F)]
  else if r ≤ 0xFFFF then
    [0xE0 ||| ((r >>> 12) % 256), 0x80 ||| (((r >>> 6) % 256) &&& 0x3F),
     0x80 ||| ((r % 256) &&& 0x3F)]
  else
    [0xF0 ||| ((r >>> 18) % 256), 0x80 ||| (((r >>> 12) % 256) &&& 0x3F),
     0x80 ||| (((r >>> 6) % 256) &&& 0x3F), 0x80 ||| ((r % 256) &&& 0x3F)]

/-- Go `utf16.IsSurrogate(r)`: `surr1 <= r && r < surr3`. -/
def IsSurrogate (r : Nat) : Bool := 0xd800 ≤ r && r < 0xe000

/-- Go `utf16.DecodeRune(r1, r2)`: the code point of a valid surrogate pair, else U+FFFD. -/
def DecodeRune (r1 r2 : Nat) : Nat :=
  if 0xd800 ≤ r1 ∧ r1 < 0xdc00 ∧ 0xdc00 ≤ r2 ∧ r2 < 0xe000 then
    (((r1 - 0xd800) <<< 10) ||| (r2 - 0xdc00)) + 0x10000
  else RuneError

/-! ## golang.org/x/text/encoding/unicode: the UTF-16 decoder -/

/-- Go `unicode.Endianness`. -/
inductive Endianness where
  | BigEndian
  | LittleEndian
  deriving DecidableEq, Repr

/-- Go `unicode.BOMPolicy` bit `acceptBOM`. -/
def acceptBOM : Nat := 0x02

/-- Go `unicode.BOMPolicy` bit `requireBOM`. -/
def requireBOM : Nat := 0x04

/-- Go `unicode.UseBOM = writeBOM | acceptBOM`. -/
def UseBOM : Nat := 0x01 ||| acceptBOM

/-- Go `unicode.ExpectBOM = writeBOM | acceptBOM | requireBOM`. -/
def ExpectBOM : Nat := 0x01 ||| acceptBOM ||| requireBOM

/-- The `config` of a `utf16Encoding`, as built by `unicode.UTF16(e, b)`. -/
structure config where
  endianness : Endianness
  bomPolicy : Nat
  deriving DecidableEq, Repr

/-- Go `unicode.UTF16(e, b)`. -/
def UTF16 (e : Endianness) (b : Nat) : config := ⟨e, b⟩

/-- The unexported `isHighSurrogate` of `x/text/encoding/unicode`; despite its name it
tests for the trailing half `0xDC00 <= r && r <= 0xDFFF`. -/
def isHighSurrogate (r : Nat) : Bool := 0xDC00 ≤ r && r ≤ 0xDFFF

/-- The 16-bit code unit read from two bytes: `x := uint16(b0)<<8 | uint16(b1)`, then
`x = x>>8 | x<<8` when the current endianness is little-endian. -/
def readUnit (e : Endianness) (b0 b1 : Nat) : Nat :=
  let x := ((b0 <<< 8) % 65536) ||| b1
  match e with
  | .LittleEndian => (x >>> 8) ||| ((x <<< 8) % 65536)
  | .BigEndian => x

/-- The end of one loop iteration of `Transform`: `if dSize = utf8.RuneLen(r); dSize < 0
{ r = utf8.RuneError }` followed by `utf8.EncodeRune(dst[nDst:], r)`. -/
def emitRune (r : Nat) : List Nat :=
  EncodeRune (if RuneLen r < 0 then RuneError else r)

/-- The loop `for nSrc < len(src)` of `utf16Decoder.Transform` with `atEOF = true`, on
the bytes of `src` from `nSrc` on; the result is what is appended to `dst`. -/
def transformLoop (e : Endianness) : List Nat → List Nat
  | [] => []
  | [_] => EncodeRune RuneError
  | b0 :: b1 :: rest =>
    let r := readUnit e b0 b1
    if IsSurrogate r then
      match rest with
      | b2 :: b3 :: rest2 =>
        let x := readUnit e b2 b3
        if isHighSurrogate x then emitRune (DecodeRune r x) ++ transformLoop e rest2
        else emitRune r ++ transformLoop e (b2 :: b3 :: rest2)
      | [b2] => emitRune r ++ transformLoop e [b2]
      | [] => emitRune r
    else emitRune r ++ transformLoop e rest

/-- Go `utf16Decoder.Transform(dst, src, true)` on a freshly reset decoder with a
destination that is large enough: the BOM handling followed by the loop. -/
def Transform (initial : config) (src : List Nat) : Except Error (List Nat) :=
  if src.length < 2 ∧ initial.bomPolicy &&& requireBOM ≠ 0 then .error .missingBOM
  else if src.length = 0 then .ok []
  else if 2 ≤ src.length ∧ initial.bomPolicy &&& acceptBOM ≠ 0 then
    if src.getD 0 0 = 0xfe ∧ src.getD 1 0 = 0xff then
      .ok (transformLoop .BigEndian (src.drop 2))
    else if src.getD 0 0 = 0xff ∧ src.getD 1 0 = 0xfe then
      .ok (transformLoop .LittleEndian (src.drop 2))
    else if initial.bomPolicy &&& requireBOM ≠ 0 then .error .missingBOM
    else .ok (transformLoop initial.endianness src)
  else .ok (transformLoop initial.endianness src)

/-- Go `enc.NewDecoder().Bytes(b)`: `transform.Bytes` resets the decoder and calls
`Transform` with `atEOF = true`, growing `dst` and resuming on `ErrShortDst`; resuming
does not change what is produced, so the result is that of one call with a
destination that is large enough. -/
def Bytes (enc : config) (b : List Nat) : Except Error (List Nat) :=
  match Transform enc b with
  | .error err => .error err
  | .ok out => .ok out

/-! ## main.go -/

/-- Lines 77-82 of `decryptObject`: `decrypted := make([]byte, len(imageval))`,
`rc4.NewCipher(rc4Key[:])`, `cipher.XORKeyStream(decrypted, imageval)`; the result is
the buffer `decrypted`. -/
def rc4Decrypt (rc4Key imageval : List Nat) : Except Error (List Nat) :=
  let decrypted := List.replicate imageval.length 0
  match NewCipher rc4Key with
  | .error err => .error err
  | .ok cipher => .ok (XORKeyStream cipher decrypted imageval).1

/-- Lines 84-90 of `decryptObject`: the conversion of `decrypted` from UTF-16 to UTF-8;
the result is the bytes of the returned Go string. -/
def decodeStep (decrypted : List Nat) : Except Error (List Nat) :=
  match Bytes (UTF16 .LittleEndian UseBOM) decrypted with
  | .error err => .error err
  | .ok parsed => .ok parsed

/-- Lines 69-90 of `decryptObject`: everything after the row has been scanned into
`imageval` and `subobjid`. -/
def decryptSteps (guid : List Nat) (id subobjid : Nat) (imageval : List Nat) :
    Except Error (List Nat) :=
  let key := keyBuffer guid id subobjid
  let rc4Key := sha1Sum key
  match rc4Decrypt rc4Key imageval with
  | .error err => .error err
  | .ok decrypted => decodeStep decrypted

/-- What the program has done so far, in order. -/
inductive Step where
  /-- Query `SELECT OBJECT_ID(:1)` was issued -/
  | lookupObjectId
  /-- the `family_guid` query was issued -/
  | lookupFamilyGUID
  /-- the `sys.sysobjvalues` query was issued -/
  | lookupPayload
  /-- the key buffer was built and hashed -/
  | deriveKey
  /-- the call `rc4.NewCipher` was made and, when it succeeded, `XORKeyStream` -/
  | rc4
  /-- the UTF-16 decoder was run -/
  | decode
  deriving DecidableEq, Repr

/-- The database behind `db *sql.DB`, as far as the three queries can observe it: each
field is the outcome of `QueryRow(...)` followed by `Scan`. -/
structure DB where
  /-- Query `SELECT OBJECT_ID(:1)` scanned into a `sql.NullInt64`: `none` is SQL `NULL` -/
  objectId : String → Except Error (Option Int)
  /-- Query `SELECT CONVERT(binary(16), family_guid) ...` scanned into a `[]byte` -/
  familyGUID : Except Error (List Nat)
  /-- Query `SELECT imageval, subobjid FROM sys.sysobjvalues WHERE objid = :1` -/
  sysobjvalues : Nat → Except Error (List Nat × Nat)

/-- Function `getObjectID(db, objectName)`; the second component is the log extended by the
query made. -/
def getObjectID (db : DB) (objectName : String) (log : List Step) :
    Except Error Nat × List Step :=
  match db.objectId objectName with
  | .error err => (.error err, log ++ [.lookupObjectId])
  | .ok (some v) => (.ok (v % 4294967296).toNat, log ++ [.lookupObjectId])
  | .ok none => (.error .objectNotFound, log ++ [.lookupObjectId])

/-- Function `getDbFamilyGUID(db)`. -/
def getDbFamilyGUID (db : DB) (log : List Step) : Except Error (List Nat) × List Step :=
  match db.familyGUID with
  | .error err => (.error err, log ++ [.lookupFamilyGUID])
  | .ok out => (.ok out, log ++ [.lookupFamilyGUID])

/-- Function `decryptObject(db, guid, id)`. -/
def decryptObject (db : DB) (guid : List Nat) (id : Nat) (log : List Step) :
    Except Error (List Nat) × List Step :=
  match db.sysobjvalues id with
  | .error err => (.error err, log ++ [.lookupPayload])
  | .ok (imageval, subobjid) =>
    let rc4Key := sha1Sum (keyBuffer guid id subobjid)
    match rc4Decrypt rc4Key imageval with
    | .error err => (.error err, log ++ [.lookupPayload, .deriveKey, .rc4])
    | .ok decrypted =>
      (decodeStep decrypted, log ++ [.lookupPayload, .deriveKey, .rc4, .decode])

/-- Lines 162-177 of `main`: the three calls, each followed by `log.Fatalln(err)` on
error; the result is what is printed (or the fatal error) and the log of what ran. -/
def pipeline (db : DB) (objectName : String) : Except Error (List Nat) × List Step :=
  match getObjectID db objectName [] with
  | (.error err, log) => (.error err, log)
  | (.ok objectID, log) =>
    match getDbFamilyGUID db log with
    | (.error err, log) => (.error err, log)
    | (.ok dbFamilyGUID, log) => decryptObject db dbFamilyGUID objectID log

/-! ## Text, for stating the round trip -/

/-- A Unicode scalar value: a code point that is not a surrogate. -/
def IsScalar (r : Nat) : Prop := r < 0xD800 ∨ (0xE000 ≤ r ∧ r ≤ 0x10FFFF)



/-- The UTF-16LE bytes of one scalar value: one code unit, or a surrogate pair for a
code point above U+FFFF, each unit low byte first. -/
def utf16leRune (r : Nat) : List Nat :=
  if r < 0x10000 then [r % 256, r / 256]
  else
    let hi := 0xD800 + (r - 0x10000) / 1024
    let lo := 0xDC00 + (r - 0x10000) % 1024
    [hi % 256, hi / 256, lo % 256, lo / 256]

/-- The UTF-16LE bytes of a text given as its scalar values. -/
def utf16le (t : List Nat) : List Nat := t.flatMap utf16leRune

/-- The UTF-8 bytes of a text given as its scalar values (the Go conversion `string([]rune)`). -/
def utf8 (t : List Nat) : List Nat := t.flatMap EncodeRune


/-! ## Auxiliary definitions used in the proofs -/

/-- The bytes that the loop of `XORKeyStream` writes, one per byte of `src`: `src`
XORed with the key stream generated from the state `s`, `i`, `j`. -/
def xorStream (s : List Nat) (i j : Nat) : List Nat → List Nat
  | [] => []
  | v :: rest =>
    let i := (i + 1) % 256
    let x := s.getD i 0
    let j := (j + x % 256) % 256
    let y := s.getD j 0
    let s := (s.set i y).set j x
    (v ^^^ (s.getD ((x + y) % 256) 0 % 256)) :: xorStream s i j rest

/-- The text of the round-trip fixture, `CREATE PROC p AS SELECT 1`, as scalar values. -/
def fixtureText : List Nat :=
  [67, 82, 69, 65, 84, 69, 32, 80, 82, 79, 67, 32, 112, 32, 65, 83, 32, 83, 69, 76, 69,
   67, 84, 32, 49]

/-- The fixture ciphertext: the UTF-16LE bytes of `fixtureText` under RC4 with the key
derived from sixteen zero bytes, object id 1 and sub-object id 0. -/
def fixtureBlob : List Nat :=
  [129, 22, 7, 130, 200, 179, 76, 62, 60, 92, 70, 35, 53, 22, 32, 113, 57, 123, 72, 193,
   155, 208, 71, 103, 86, 173, 76, 146, 5, 179, 16, 127, 194, 87, 65, 215, 9, 118, 23,
   106, 140, 25, 150, 89, 96, 76, 199, 211, 68, 28]


instance : DecidablePred IsScalar :=
  fun r => inferInstanceAs (Decidable (r < 0xD800 ∨ (0xE000 ≤ r ∧ r ≤ 0x10FFFF)))

deriving instance DecidableEq for Except

/-- A database in which the object exists, the `family_guid` column is `NULL` (scanned
into an empty `[]byte`) and the payload row holds the fixture ciphertext. -/
def dbNullGUID : DB where
  objectId := fun _ => .ok (some 1)
  familyGUID := .ok []
  sysobjvalues := fun _ => .ok (fixtureBlob, 0)

/-- A database in which `OBJECT_ID` is `NULL` for every name. -/
def dbNoObject : DB where
  objectId := fun _ => .ok none
  familyGUID := .ok (List.replicate 16 0)
  sysobjvalues := fun _ => .ok (fixtureBlob, 0)


/-! ## Key derivation -/

theorem PutUint32_length (v : Nat) : (PutUint32 v).length = 4 := rfl

theorem PutUint16_length (v : Nat) : (PutUint16 v).length = 2 := rfl

/-- The key buffer for a GUID of any length: the first 16 bytes of the GUID, padded
with zeros when it is shorter, then the two identifiers. -/
theorem keyBuffer_eq_general (guid : List Nat) (id subobjid : Nat) :
    keyBuffer guid id subobjid
      = (guid.take 16 ++ List.replicate (16 - guid.length) 0)
          ++ PutUint32 id ++ PutUint16 subobjid := by
  have hcopy : copy (List.replicate 16 0) guid
      = guid.take 16 ++ List.replicate (16 - guid.length) 0 := by
    simp only [copy, List.length_replicate, List.drop_replicate]
    congr 2
    omega
  have hlen : (guid.take 16 ++ List.replicate (16 - guid.length) (0 : Nat)).length = 16 := by
    simp; omega
  simp only [keyBuffer]
  rw [show List.take 16 (List.replicate (16 + 4 + 2) (0 : Nat)) = List.replicate 16 0 from by
    simp [List.take_replicate], hcopy]
  generalize hp : guid.take 16 ++ List.replicate (16 - guid.length) (0 : Nat) = p at hlen ⊢
  simp [List.take_append_eq_append_take, List.drop_append_eq_append_drop, hlen,
    PutUint32_length, PutUint16_length, List.drop_replicate, List.take_of_length_le,
    List.drop_of_length_le, PutUint32, PutUint16]

theorem keyBuffer_eq (guid : List Nat) (id subobjid : Nat) (h : guid.length = 16) :
    keyBuffer guid id subobjid = guid ++ PutUint32 id ++ PutUint16 subobjid := by
  rw [keyBuffer_eq_general, h, List.take_of_length_le (by omega)]
  simp

theorem sha1Sum_length (data : List Nat) : (sha1Sum data).length = 20 := by
  simp [sha1Sum, BePutUint32]

/-- The FIPS 180 test vector: the SHA-1 digest of `abc`. -/
theorem sha1Sum_abc :
    sha1Sum [0x61, 0x62, 0x63]
      = [0xA9, 0x99, 0x3E, 0x36, 0x47, 0x06, 0x81, 0x6A, 0xBA, 0x3E, 0x25, 0x71, 0x78, 0x50,
         0xC2, 0x6C, 0x9C, 0xD0, 0xD8, 0x9D] := by decide!


/-! ## RC4 -/

theorem xorLoop_length (src : List Nat) : ∀ (s : List Nat) (i j k : Nat) (dst : List Nat),
    (xorLoop s i j k dst src).1.length = dst.length := by
  induction src with
  | nil => intro s i j k dst; rfl
  | cons v rest ih =>
    intro s i j k dst
    simp only [xorLoop]
    rw [ih]
    simp

theorem XORKeyStream_length (c : Cipher) (dst src : List Nat) :
    (XORKeyStream c dst src).1.length = dst.length := by
  unfold XORKeyStream
  split
  · rfl
  · exact xorLoop_length src _ _ _ _ _

theorem take_succ_set (l : List Nat) : ∀ (k b : Nat), k < l.length →
    (l.set k b).take (k + 1) = l.take k ++ [b] := by
  induction l with
  | nil => intro k b h; simp at h
  | cons a t ih =>
    intro k b h
    cases k with
    | zero => simp
    | succ k =>
      simp only [List.length_cons, Nat.add_lt_add_iff_right] at h
      simp [ih k b h]

theorem xorLoop_eq_xorStream (src : List Nat) :
    ∀ (s : List Nat) (i j k : Nat) (dst : List Nat), k + src.length ≤ dst.length →
      (xorLoop s i j k dst src).1
        = dst.take k ++ xorStream s i j src ++ dst.drop (k + src.length) := by
  induction src with
  | nil => intro s i j k dst _; simp [xorLoop, xorStream]
  | cons v rest ih =>
    intro s i j k dst h
    simp only [List.length_cons] at h
    have step : ∀ (b : Nat) (s2 : List Nat) (i2 j2 : Nat),
        (xorLoop s2 i2 j2 (k + 1) (dst.set k b) rest).1
          = dst.take k ++ (b :: xorStream s2 i2 j2 rest)
              ++ dst.drop (k + (rest.length + 1)) := by
      intro b s2 i2 j2
      rw [ih _ _ _ _ _ (by simp; omega), take_succ_set _ _ _ (by omega),
        List.drop_set_of_lt _ _ (by omega)]
      simp [Nat.add_assoc, Nat.add_comm 1]
    simp only [xorLoop, xorStream, List.length_cons]
    exact step _ _ _ _

theorem xorStream_involutive (src : List Nat) : ∀ (s : List Nat) (i j : Nat),
    xorStream s i j (xorStream s i j src) = src := by
  induction src with
  | nil => intro s i j; rfl
  | cons v rest ih =>
    intro s i j
    simp only [xorStream]
    rw [ih, Nat.xor_assoc, Nat.xor_self, Nat.xor_zero]

theorem xorStream_length (src : List Nat) : ∀ (s : List Nat) (i j : Nat),
    (xorStream s i j src).length = src.length := by
  induction src with
  | nil => intro s i j; rfl
  | cons v rest ih => intro s i j; simp only [xorStream, List.length_cons, ih]

theorem XORKeyStream_eq_xorStream (c : Cipher) (src : List Nat) :
    (XORKeyStream c (List.replicate src.length 0) src).1 = xorStream c.s c.i c.j src := by
  unfold XORKeyStream
  split
  · next h =>
    have : src = [] := List.length_eq_zero.mp h
    subst this
    rfl
  · rw [xorLoop_eq_xorStream src _ _ _ _ _ (by simp)]
    simp

/-- Decrypting with the key that encrypted gives the plaintext back. -/
theorem rc4Decrypt_involutive (key plain blob : List Nat)
    (h : rc4Decrypt key plain = .ok blob) : rc4Decrypt key blob = .ok plain := by
  unfold rc4Decrypt at h ⊢
  cases hc : NewCipher key with
  | error e => simp [hc] at h
  | ok c =>
    simp only [hc, Except.ok.injEq] at h ⊢
    rw [XORKeyStream_eq_xorStream] at h ⊢
    rw [← h, xorStream_involutive]

/-- The classic RC4 test vector: key `Key`, plaintext `Plaintext`. -/
theorem rc4Decrypt_test_vector :
    rc4Decrypt [0x4B, 0x65, 0x79] [0x50, 0x6C, 0x61, 0x69, 0x6E, 0x74, 0x65, 0x78, 0x74]
      = .ok [0xBB, 0xF3, 0x16, 0xE8, 0xD9, 0x40, 0xAF, 0x0A, 0xD3] := by decide!

theorem NewCipher_ok (key : List Nat) (h1 : 1 ≤ key.length) (h2 : key.length ≤ 256) :
    ∃ c, NewCipher key = .ok c := by
  unfold NewCipher
  simp only [show ¬ (key.length < 1 ∨ key.length > 256) from by omega, if_false]
  exact ⟨_, rfl⟩


/-! ## UTF-16 decoding -/

theorem readUnit_LittleEndian (b0 b1 : Nat) (h0 : b0 < 256) (h1 : b1 < 256) :
    readUnit .LittleEndian b0 b1 = b1 * 256 + b0 := by
  have e1 : (b0 <<< 8) % 65536 = 2 ^ 8 * b0 := by
    rw [Nat.shiftLeft_eq]; omega
  have e2 : 2 ^ 8 * b0 ||| b1 = 2 ^ 8 * b0 + b1 :=
    (Nat.mul_add_lt_is_or (by omega : b1 < 2 ^ 8) b0).symm
  have e3 : (2 ^ 8 * b0 + b1) >>> 8 = b0 := by
    rw [Nat.shiftRight_eq_div_pow]; omega
  have e4 : ((2 ^ 8 * b0 + b1) <<< 8) % 65536 = 2 ^ 8 * b1 := by
    rw [Nat.shiftLeft_eq]; omega
  have e5 : b0 ||| 2 ^ 8 * b1 = 2 ^ 8 * b1 + b0 := by
    rw [Nat.lor_comm]
    exact (Nat.mul_add_lt_is_or (by omega : b0 < 2 ^ 8) b1).symm
  simp only [readUnit, e1, e2, e3, e4, e5]
  omega

theorem readUnit_split (u : Nat) (h : u < 65536) :
    readUnit .LittleEndian (u % 256) (u / 256) = u := by
  rw [readUnit_LittleEndian _ _ (by omega) (by omega)]
  omega

theorem DecodeRune_pair (r : Nat) (h1 : 0x10000 ≤ r) (h2 : r ≤ 0x10FFFF) :
    DecodeRune (0xD800 + (r - 0x10000) / 1024) (0xDC00 + (r - 0x10000) % 1024) = r := by
  unfold DecodeRune
  rw [if_pos (by omega)]
  have e1 : (0xD800 + (r - 0x10000) / 1024 - 0xd800) <<< 10
      = 2 ^ 10 * ((r - 0x10000) / 1024) := by
    rw [Nat.shiftLeft_eq]; omega
  have e2 : 0xDC00 + (r - 0x10000) % 1024 - 0xdc00 = (r - 0x10000) % 1024 := by omega
  rw [e1, e2, ← Nat.mul_add_lt_is_or (by omega : (r - 0x10000) % 1024 < 2 ^ 10)]
  omega

theorem emitRune_of_isScalar (r : Nat) (h : IsScalar r) : emitRune r = EncodeRune r := by
  unfold IsScalar at h
  have : ¬ RuneLen r < 0 := by
    unfold RuneLen
    split_ifs <;> first | decide | omega
  simp [emitRune, this]

theorem transformLoop_step (e : Endianness) (b0 b1 : Nat) (rest : List Nat)
    (h : IsSurrogate (readUnit e b0 b1) = false) :
    transformLoop e (b0 :: b1 :: rest)
      = emitRune (readUnit e b0 b1) ++ transformLoop e rest := by
  rcases rest with _ | ⟨b2, _ | ⟨b3, rest2⟩⟩ <;> simp [transformLoop, h]

theorem transformLoop_pair (e : Endianness) (b0 b1 b2 b3 : Nat) (rest : List Nat)
    (h1 : IsSurrogate (readUnit e b0 b1) = true)
    (h2 : isHighSurrogate (readUnit e b2 b3) = true) :
    transformLoop e (b0 :: b1 :: b2 :: b3 :: rest)
      = emitRune (DecodeRune (readUnit e b0 b1) (readUnit e b2 b3))
          ++ transformLoop e rest := by
  simp [transformLoop, h1, h2]

theorem transformLoop_utf16leRune (r : Nat) (h : IsScalar r) (rest : List Nat) :
    transformLoop .LittleEndian (utf16leRune r ++ rest)
      = EncodeRune r ++ transformLoop .LittleEndian rest := by
  have hs := h
  unfold IsScalar at h
  unfold utf16leRune
  by_cases hr : r < 0x10000
  · have hn : IsSurrogate r = false := by
      simp only [IsSurrogate, Bool.and_eq_false_imp, decide_eq_true_eq, decide_eq_false_iff_not]
      omega
    simp only [if_pos hr, List.cons_append, List.nil_append]
    rw [transformLoop_step _ _ _ _ (by rw [readUnit_split r hr]; exact hn),
      readUnit_split r hr, emitRune_of_isScalar r hs]
  · have hhi : readUnit .LittleEndian ((0xD800 + (r - 0x10000) / 1024) % 256)
        ((0xD800 + (r - 0x10000) / 1024) / 256) = 0xD800 + (r - 0x10000) / 1024 :=
      readUnit_split _ (by omega)
    have hlo : readUnit .LittleEndian ((0xDC00 + (r - 0x10000) % 1024) % 256)
        ((0xDC00 + (r - 0x10000) % 1024) / 256) = 0xDC00 + (r - 0x10000) % 1024 :=
      readUnit_split _ (by omega)
    have h1 : IsSurrogate (0xD800 + (r - 0x10000) / 1024) = true := by
      simp only [IsSurrogate, Bool.and_eq_true, decide_eq_true_eq]
      omega
    have h2 : isHighSurrogate (0xDC00 + (r - 0x10000) % 1024) = true := by
      simp only [isHighSurrogate, Bool.and_eq_true, decide_eq_true_eq]
      omega
    simp only [if_neg hr, List.cons_append, List.nil_append]
    rw [transformLoop_pair _ _ _ _ _ _ (by rw [hhi]; exact h1) (by rw [hlo]; exact h2), hhi, hlo,
      DecodeRune_pair r (by omega) (by omega), emitRune_of_isScalar r hs]

theorem transformLoop_utf16le (t : List Nat) (h : ∀ r ∈ t, IsScalar r) :
    transformLoop .LittleEndian (utf16le t) = utf8 t := by
  induction t with
  | nil => rfl
  | cons r t ih =>
    simp only [utf16le, utf8, List.flatMap_cons] at ih ⊢
    rw [transformLoop_utf16leRune r (h r (List.mem_cons_self _ _)),
      ih (fun x hx => h x (List.mem_cons_of_mem _ hx))]

/-- The decoder of `decodeStep` never reports an error: with `UseBOM` the only error of
`Transform`, `ErrMissingBOM`, is out of reach. -/
theorem decodeStep_eq (b : List Nat) :
    decodeStep b =
      .ok (if b.length < 2 then transformLoop .LittleEndian b
           else if b.getD 0 0 = 0xfe ∧ b.getD 1 0 = 0xff then
             transformLoop .BigEndian (b.drop 2)
           else if b.getD 0 0 = 0xff ∧ b.getD 1 0 = 0xfe then
             transformLoop .LittleEndian (b.drop 2)
           else transformLoop .LittleEndian b) := by
  have hreq : (UseBOM &&& requireBOM ≠ 0) = False := eq_false (by decide)
  have hacc : (UseBOM &&& acceptBOM ≠ 0) = True := eq_true (by decide)
  unfold decodeStep Bytes Transform UTF16
  simp only [hreq, hacc, and_false, and_true, if_false]
  by_cases h0 : b.length = 0
  · have : b = [] := List.length_eq_zero.mp h0
    subst this
    simp [transformLoop]
  · by_cases h2 : 2 ≤ b.length
    · simp only [h0, h2, if_true, if_false, show ¬ b.length < 2 from by omega]
      split_ifs <;> rfl
    · simp only [h0, h2, if_false, show b.length < 2 from by omega, if_true]

theorem utf16leRune_head (r : Nat) (h : IsScalar r) :
    ∃ a b tl, utf16leRune r = a :: b :: tl ∧ a < 256 ∧ b < 256 ∧
      (b * 256 + a = r ∨ b * 256 + a < 0xDC00) := by
  unfold IsScalar at h
  unfold utf16leRune
  by_cases hr : r < 0x10000
  · exact ⟨r % 256, r / 256, [], by simp only [if_pos hr], by omega, by omega, by omega⟩
  · exact ⟨(0xD800 + (r - 0x10000) / 1024) % 256, (0xD800 + (r - 0x10000) / 1024) / 256,
      [(0xDC00 + (r - 0x10000) % 1024) % 256, (0xDC00 + (r - 0x10000) % 1024) / 256],
      by simp only [if_neg hr], by omega, by omega, by omega⟩

theorem decodeStep_utf16le (t : List Nat) (h : ∀ r ∈ t, IsScalar r)
    (hbom : t.head? ≠ some 0xFEFF ∧ t.head? ≠ some 0xFFFE) :
    decodeStep (utf16le t) = .ok (utf8 t) := by
  rw [decodeStep_eq]
  cases t with
  | nil => simp [utf16le, utf8, transformLoop]
  | cons r t =>
    have hloop := transformLoop_utf16le (r :: t) h
    simp only [List.head?_cons, ne_eq, Option.some.injEq] at hbom
    obtain ⟨a, b, tl, htl, ha, hb, hab⟩ := utf16leRune_head r (h r (List.mem_cons_self _ _))
    have hsplit : utf16le (r :: t) = a :: b :: (tl ++ utf16le t) := by
      simp only [utf16le, List.flatMap_cons, htl, List.cons_append]
    rw [hloop]
    rw [hsplit]
    simp only [List.getD_cons_zero, List.getD_cons_succ]
    have hne1 : ¬ (a = 0xfe ∧ b = 0xff) := by omega
    have hne2 : ¬ (a = 0xff ∧ b = 0xfe) := by omega
    simp only [hne1, hne2, if_false, ite_self]


theorem xorStream_append (src : List Nat) (x : Nat) : ∀ (s : List Nat) (i j : Nat),
    ∃ y, xorStream s i j (src ++ [x]) = xorStream s i j src ++ [y] := by
  induction src with
  | nil => intro s i j; exact ⟨_, rfl⟩
  | cons v rest ih =>
    intro s i j
    simp only [List.cons_append, xorStream]
    obtain ⟨y, hy⟩ := ih
      ((s.set ((i + 1) % 256) (s.getD ((j + s.getD ((i + 1) % 256) 0 % 256) % 256) 0)).set
        ((j + s.getD ((i + 1) % 256) 0 % 256) % 256) (s.getD ((i + 1) % 256) 0))
      ((i + 1) % 256) ((j + s.getD ((i + 1) % 256) 0 % 256) % 256)
    exact ⟨y, congrArg (List.cons _) hy⟩

theorem rc4Decrypt_sha1_ok (data imageval : List Nat) :
    ∃ c, NewCipher (sha1Sum data) = .ok c ∧
      rc4Decrypt (sha1Sum data) imageval = .ok (xorStream c.s c.i c.j imageval) := by
  obtain ⟨c, hc⟩ := NewCipher_ok (sha1Sum data) (by rw [sha1Sum_length]; omega)
    (by rw [sha1Sum_length]; omega)
  refine ⟨c, hc, ?_⟩
  simp only [rc4Decrypt, hc, XORKeyStream_eq_xorStream]

theorem transformLoop_append_single (e : Endianness) (x : Nat) : ∀ (n : Nat) (b : List Nat),
    b.length = 2 * n →
      transformLoop e (b ++ [x]) = transformLoop e b ++ [0xEF, 0xBF, 0xBD] := by
  intro n
  induction n using Nat.strong_induction_on with
  | _ n ih =>
    intro b hb
    rcases b with _ | ⟨b0, _ | ⟨b1, rest⟩⟩
    · rfl
    · simp at hb; omega
    · rcases rest with _ | ⟨b2, _ | ⟨b3, rest2⟩⟩
      · simp [transformLoop]
        rfl
      · simp at hb; omega
      · simp only [List.length_cons] at hb
        have h1 := ih (n - 1) (by omega) (b2 :: b3 :: rest2) (by simp only [List.length_cons]; omega)
        have h2 := ih (n - 2) (by omega) rest2 (by omega)
        simp only [List.cons_append] at h1 ⊢
        simp only [transformLoop, h1, h2]
        split_ifs <;> simp

theorem decodeStep_append_single (b : List Nat) (x : Nat) (h : b.length % 2 = 0) :
    ∃ text, decodeStep b = .ok text ∧ decodeStep (b ++ [x]) = .ok (text ++ [0xEF, 0xBF, 0xBD]) := by
  refine ⟨_, decodeStep_eq b, ?_⟩
  rw [decodeStep_eq]
  rcases b with _ | ⟨b0, _ | ⟨b1, rest⟩⟩
  · rfl
  · simp at h
  · have hrest : rest.length = 2 * (rest.length / 2) := by
      simp only [List.length_cons] at h; omega
    have hall : (b0 :: b1 :: rest).length = 2 * ((b0 :: b1 :: rest).length / 2) := by omega
    have e1 := transformLoop_append_single .BigEndian x _ rest hrest
    have e2 := transformLoop_append_single .LittleEndian x _ rest hrest
    have e3 := transformLoop_append_single .LittleEndian x _ (b0 :: b1 :: rest) hall
    simp only [List.cons_append] at e3
    simp only [List.cons_append, List.length_cons, List.length_append, List.length_nil,
      show ¬ (rest.length + 1 + 1 + 1 < 2) from by omega,
      show ¬ (rest.length + 1 + 1 < 2) from by omega, if_false, List.getD_cons_zero,
      List.getD_cons_succ, List.drop_succ_cons, List.drop_zero, e1, e2, e3]
    split_ifs <;> rfl

theorem decryptSteps_eq (guid : List Nat) (id subobjid : Nat) (imageval : List Nat) :
    ∃ c, NewCipher (sha1Sum (keyBuffer guid id subobjid)) = .ok c ∧
      decryptSteps guid id subobjid imageval = decodeStep (xorStream c.s c.i c.j imageval) := by
  obtain ⟨c, hc, hd⟩ := rc4Decrypt_sha1_ok (keyBuffer guid id subobjid) imageval
  exact ⟨c, hc, by simp only [decryptSteps, hd]⟩

theorem decryptSteps_ok (guid : List Nat) (id subobjid : Nat) (imageval : List Nat) :
    ∃ text, decryptSteps guid id subobjid imageval = .ok text := by
  obtain ⟨c, _, hd⟩ := decryptSteps_eq guid id subobjid imageval
  exact ⟨_, by rw [hd, decodeStep_eq]⟩

theorem decryptSteps_of_encrypted (guid : List Nat) (id subobjid : Nat) (t blob : List Nat)
    (ht : ∀ r ∈ t, IsScalar r) (hbom : t.head? ≠ some 0xFEFF ∧ t.head? ≠ some 0xFFFE)
    (henc : rc4Decrypt (sha1Sum (keyBuffer guid id subobjid)) (utf16le t) = .ok blob) :
    decryptSteps guid id subobjid blob = .ok (utf8 t) := by
  simp only [decryptSteps, rc4Decrypt_involutive _ _ _ henc]
  exact decodeStep_utf16le t ht hbom

theorem fixture_encrypted :
    rc4Decrypt (sha1Sum (keyBuffer (List.replicate 16 0) 1 0)) (utf16le fixtureText)
      = .ok fixtureBlob := by decide!

/-! ## The pipeline -/

theorem decryptObject_fst (db : DB) (guid : List Nat) (id : Nat) (log : List Step) :
    (decryptObject db guid id log).1 =
      match db.sysobjvalues id with
      | .error err => .error err
      | .ok (imageval, subobjid) => decryptSteps guid id subobjid imageval := by
  unfold decryptObject decryptSteps
  cases db.sysobjvalues id with
  | error err => rfl
  | ok p =>
    obtain ⟨imageval, subobjid⟩ := p
    simp only
    cases rc4Decrypt (sha1Sum (keyBuffer guid id subobjid)) imageval <;> rfl

theorem decryptObject_ok (db : DB) (guid : List Nat) (id : Nat) (log : List Step)
    (imageval : List Nat) (subobjid : Nat) (h : db.sysobjvalues id = .ok (imageval, subobjid)) :
    decryptObject db guid id log
      = (decryptSteps guid id subobjid imageval,
          log ++ [.lookupPayload, .deriveKey, .rc4, .decode]) := by
  obtain ⟨c, hc, hd⟩ := rc4Decrypt_sha1_ok (keyBuffer guid id subobjid) imageval
  simp only [decryptObject, decryptSteps, h, hd]

theorem PutUint32_eq (v : Nat) :
    PutUint32 v = [v % 256, v / 256 % 256, v / 65536 % 256, v / 16777216 % 256] := by
  simp [PutUint32, Nat.shiftRight_eq_div_pow]

theorem PutUint16_eq (v : Nat) : PutUint16 v = [v % 256, v / 256 % 256] := by
  simp [PutUint16, Nat.shiftRight_eq_div_pow]


theorem emitRune_of_isSurrogate (r : Nat) (h : IsSurrogate r = true) :
    emitRune r = [0xEF, 0xBF, 0xBD] := by
  simp only [IsSurrogate, Bool.and_eq_true, decide_eq_true_eq] at h
  have : RuneLen r < 0 := by
    unfold RuneLen
    rw [if_neg (by omega), if_neg (by omega), if_pos (by omega)]
    decide
  simp only [emitRune, this, if_true]
  rfl

/-! ## The claims -/

/-- Claim C1: for a 16-byte family GUID `g`, a 32-bit object id `i` and a 16-bit sub-object id
`s`, the buffer that `decryptObject` hashes is `g`, then `i` as four little-endian
bytes, then `s` as two little-endian bytes, 22 bytes in all; the RC4 key is the
SHA-1 digest of that buffer and is 20 bytes long. -/
theorem decryptObject_key_is_sha1_of_buffer (g : List Nat) (i s : Nat) (imageval : List Nat)
    (hg : g.length = 16) (hi : i < 2 ^ 32) (hs : s < 2 ^ 16) :
    keyBuffer g i s
        = g ++ [i % 256, i / 256 % 256, i / 65536 % 256, i / 16777216 % 256]
            ++ [s % 256, s / 256]
      ∧ i % 256 + 256 * (i / 256 % 256) + 65536 * (i / 65536 % 256)
          + 16777216 * (i / 16777216 % 256) = i
      ∧ s % 256 + 256 * (s / 256) = s ∧ s / 256 < 256
      ∧ (keyBuffer g i s).length = 22
      ∧ (sha1Sum (keyBuffer g i s)).length = 20
      ∧ decryptSteps g i s imageval
          = (match rc4Decrypt
                (sha1Sum (g ++ [i % 256, i / 256 % 256, i / 65536 % 256, i / 16777216 % 256]
                  ++ [s % 256, s / 256])) imageval with
             | .error err => .error err
             | .ok decrypted => decodeStep decrypted) := by
  have hbuf : keyBuffer g i s
      = g ++ [i % 256, i / 256 % 256, i / 65536 % 256, i / 16777216 % 256]
          ++ [s % 256, s / 256] := by
    rw [keyBuffer_eq g i s hg, PutUint32_eq, PutUint16_eq,
      show s / 256 % 256 = s / 256 from by omega]
  refine ⟨hbuf, by omega, by omega, by omega, ?_, sha1Sum_length _, ?_⟩
  · rw [hbuf]; simp [hg]
  · simp only [decryptSteps, hbuf]

/-- Claim C1 at the fixture: sixteen zero bytes, object id 1, sub-object id 0. -/
theorem decryptObject_key_is_sha1_of_buffer_witness :
    keyBuffer (List.replicate 16 0) 1 0
        = List.replicate 16 0 ++ [1 % 256, 1 / 256 % 256, 1 / 65536 % 256, 1 / 16777216 % 256]
            ++ [0 % 256, 0 / 256]
      ∧ 1 % 256 + 256 * (1 / 256 % 256) + 65536 * (1 / 65536 % 256)
          + 16777216 * (1 / 16777216 % 256) = 1
      ∧ 0 % 256 + 256 * (0 / 256) = 0 ∧ 0 / 256 < 256
      ∧ (keyBuffer (List.replicate 16 0) 1 0).length = 22
      ∧ (sha1Sum (keyBuffer (List.replicate 16 0) 1 0)).length = 20
      ∧ decryptSteps (List.replicate 16 0) 1 0 fixtureBlob
          = (match rc4Decrypt
                (sha1Sum (List.replicate 16 0
                  ++ [1 % 256, 1 / 256 % 256, 1 / 65536 % 256, 1 / 16777216 % 256]
                  ++ [0 % 256, 0 / 256])) fixtureBlob with
             | .error err => .error err
             | .ok decrypted => decodeStep decrypted) :=
  decryptObject_key_is_sha1_of_buffer (List.replicate 16 0) 1 0 fixtureBlob
    (by decide) (by decide) (by decide)

/-- Claim C2: round trip. For a 16-byte family GUID `g`, ids `i` and `s`, and a text `t` of
Unicode scalar values that does not begin with U+FEFF or U+FFFE: if `blob` is the RC4
encryption of the UTF-16LE bytes of `t` under the key `SHA1(g ++ LE32(i) ++ LE16(s))`,
the steps of `decryptObject` return `t` in UTF-8 and no error. -/
theorem decryptObject_roundtrip (g : List Nat) (i s : Nat) (t blob : List Nat)
    (hg : g.length = 16) (ht : ∀ r ∈ t, IsScalar r)
    (hbom : t.head? ≠ some 0xFEFF ∧ t.head? ≠ some 0xFFFE)
    (henc : rc4Decrypt (sha1Sum (g ++ PutUint32 i ++ PutUint16 s)) (utf16le t) = .ok blob) :
    decryptSteps g i s blob = .ok (utf8 t) := by
  rw [← keyBuffer_eq g i s hg] at henc
  exact decryptSteps_of_encrypted g i s t blob ht hbom henc

/-- The fixture of claim C2: sixteen zero bytes, object id 1, sub-object id 0 and the
text `CREATE PROC p AS SELECT 1`, whose UTF-8 bytes are its scalar values. -/
theorem decryptObject_roundtrip_witness :
    decryptSteps (List.replicate 16 0) 1 0 fixtureBlob = .ok (utf8 fixtureText)
      ∧ utf8 fixtureText = fixtureText :=
  ⟨decryptObject_roundtrip (List.replicate 16 0) 1 0 fixtureText fixtureBlob
    (by decide) (by decide) (by decide)
    (by rw [← keyBuffer_eq _ _ _ (by decide)]; exact fixture_encrypted), by decide⟩

/-- Claim C3: the buffer `decrypted` after `XORKeyStream` is as long as the ciphertext, for
every cipher state and every ciphertext, the empty one included; seen from the key,
the RC4 step either yields a buffer of the ciphertext length or is refused by
`NewCipher` because the key is empty or longer than 256 bytes. -/
theorem rc4_output_length (key imageval : List Nat) :
    (∀ c : Cipher,
        (XORKeyStream c (List.replicate imageval.length 0) imageval).1.length
          = imageval.length)
      ∧ (match rc4Decrypt key imageval with
         | .ok decrypted => decrypted.length = imageval.length
         | .error err => err = .keySize key.length ∧ (key.length < 1 ∨ key.length > 256)) := by
  refine ⟨fun c => by rw [XORKeyStream_length, List.length_replicate], ?_⟩
  unfold rc4Decrypt NewCipher
  by_cases hk : key.length < 1 ∨ key.length > 256
  · rw [if_pos hk]
    exact ⟨rfl, hk⟩
  · rw [if_neg hk]
    show (XORKeyStream _ _ imageval).1.length = imageval.length
    rw [XORKeyStream_length, List.length_replicate]

/-- Claim C9: whatever the GUID, the ids and the ciphertext, the key handed to
`rc4.NewCipher` is 20 bytes long, `NewCipher` accepts it, the RC4 step yields a buffer,
and the steps of `decryptObject` never end in a key-size error. -/
theorem NewCipher_never_fails (guid : List Nat) (id subobjid : Nat) (imageval : List Nat) :
    (sha1Sum (keyBuffer guid id subobjid)).length = 20
      ∧ (∃ c, NewCipher (sha1Sum (keyBuffer guid id subobjid)) = .ok c)
      ∧ (∃ decrypted,
          rc4Decrypt (sha1Sum (keyBuffer guid id subobjid)) imageval = .ok decrypted)
      ∧ ∀ k, decryptSteps guid id subobjid imageval ≠ .error (.keySize k) := by
  obtain ⟨c, hc, hd⟩ := rc4Decrypt_sha1_ok (keyBuffer guid id subobjid) imageval
  obtain ⟨text, htext⟩ := decryptSteps_ok guid id subobjid imageval
  refine ⟨sha1Sum_length _, ⟨c, hc⟩, ⟨_, hd⟩, ?_⟩
  intro k hk
  rw [htext] at hk
  cases hk

/-- Claim C10: the hashed buffer determines its inputs. For 16-byte GUIDs, 32-bit object ids
and 16-bit sub-object ids, two buffers are equal exactly when the GUIDs, the object
ids and the sub-object ids are equal. -/
theorem keyBuffer_injective (g1 g2 : List Nat) (i1 i2 s1 s2 : Nat)
    (hg1 : g1.length = 16) (hg2 : g2.length = 16)
    (hi1 : i1 < 2 ^ 32) (hi2 : i2 < 2 ^ 32) (hs1 : s1 < 2 ^ 16) (hs2 : s2 < 2 ^ 16) :
    keyBuffer g1 i1 s1 = keyBuffer g2 i2 s2 ↔ (g1 = g2 ∧ i1 = i2 ∧ s1 = s2) := by
  constructor
  · intro h
    rw [keyBuffer_eq g1 i1 s1 hg1, keyBuffer_eq g2 i2 s2 hg2, List.append_assoc,
      List.append_assoc] at h
    obtain ⟨hg, hrest⟩ := List.append_inj h (by rw [hg1, hg2])
    rw [PutUint32_eq, PutUint32_eq, PutUint16_eq, PutUint16_eq] at hrest
    simp only [List.cons_append, List.nil_append, List.cons.injEq, and_true] at hrest
    refine ⟨hg, ?_, ?_⟩ <;> omega
  · rintro ⟨rfl, rfl, rfl⟩
    rfl

/-- Claim C10 at the fixture inputs. -/
theorem keyBuffer_injective_witness :
    keyBuffer (List.replicate 16 0) 1 0 = keyBuffer (List.replicate 16 0) 1 0
      ↔ (List.replicate 16 0 = List.replicate 16 (0 : Nat) ∧ (1 : Nat) = 1 ∧ (0 : Nat) = 0) :=
  keyBuffer_injective (List.replicate 16 0) (List.replicate 16 0) 1 1 0 0
    (by decide) (by decide) (by decide) (by decide) (by decide) (by decide)


/-- Claim C4, as stated, fails: the three bytes `41 00 42` decode without error to `A`
followed by U+FFFD, and so does the three-byte ciphertext `81 16 07` of the fixture. -/
theorem odd_length_is_not_rejected :
    [0x41, 0x00, 0x42].length % 2 = 1
      ∧ decodeStep [0x41, 0x00, 0x42] = .ok [0x41, 0xEF, 0xBF, 0xBD]
      ∧ (¬ ∃ err, decodeStep [0x41, 0x00, 0x42] = .error err)
      ∧ decryptSteps (List.replicate 16 0) 1 0 [129, 22, 7] = .ok [0x43, 0xEF, 0xBF, 0xBD] := by
  refine ⟨by decide, by decide, ?_, by decide!⟩
  rintro ⟨err, h⟩
  rw [show decodeStep [0x41, 0x00, 0x42] = .ok [0x41, 0xEF, 0xBF, 0xBD] from by decide] at h
  cases h

/-- Claim C4 (amended): on a decrypted byte sequence of odd length the decoder does not fail;
it returns the text decoded from the sequence without its last byte, followed by
U+FFFD (`EF BF BD`) in place of that byte, and the steps of `decryptObject` return
that text for a ciphertext of odd length. -/
theorem odd_length_trailing_byte_replaced (b : List Nat) (x : Nat) (guid : List Nat)
    (id subobjid : Nat) (h : b.length % 2 = 0) :
    (∃ text, decodeStep b = .ok text
        ∧ decodeStep (b ++ [x]) = .ok (text ++ [0xEF, 0xBF, 0xBD]))
      ∧ (∃ text, decryptSteps guid id subobjid b = .ok text
        ∧ decryptSteps guid id subobjid (b ++ [x]) = .ok (text ++ [0xEF, 0xBF, 0xBD])) := by
  refine ⟨decodeStep_append_single b x h, ?_⟩
  obtain ⟨c, hc, hd⟩ := decryptSteps_eq guid id subobjid b
  obtain ⟨c2, hc2, hd2⟩ := decryptSteps_eq guid id subobjid (b ++ [x])
  have hcc : c2 = c := by
    rw [hc] at hc2
    cases hc2
    rfl
  subst hcc
  obtain ⟨y, hy⟩ := xorStream_append b x c2.s c2.i c2.j
  obtain ⟨text, h1, h2⟩ := decodeStep_append_single (xorStream c2.s c2.i c2.j b) y
    (by rw [xorStream_length]; exact h)
  exact ⟨text, by rw [hd, h1], by rw [hd2, hy, h2]⟩

/-- Claim C4 (amended) at the first three bytes of the fixture ciphertext. -/
theorem odd_length_trailing_byte_replaced_witness :
    (∃ text, decodeStep [129, 22] = .ok text
        ∧ decodeStep ([129, 22] ++ [7]) = .ok (text ++ [0xEF, 0xBF, 0xBD]))
      ∧ (∃ text, decryptSteps (List.replicate 16 0) 1 0 [129, 22] = .ok text
        ∧ decryptSteps (List.replicate 16 0) 1 0 ([129, 22] ++ [7])
            = .ok (text ++ [0xEF, 0xBF, 0xBD])) :=
  odd_length_trailing_byte_replaced [129, 22] 7 (List.replicate 16 0) 1 0 (by decide)


/-- Claim C5, as stated, fails: a lone high surrogate (`00 D8`) and a low surrogate that no
high surrogate precedes (`41 00 00 DC`) both decode without error, to U+FFFD. -/
theorem unpaired_surrogate_is_not_rejected :
    decodeStep [0x00, 0xD8] = .ok [0xEF, 0xBF, 0xBD]
      ∧ decodeStep [0x41, 0x00, 0x00, 0xDC] = .ok [0x41, 0xEF, 0xBF, 0xBD]
      ∧ ¬ ∃ err, decodeStep [0x00, 0xD8] = .error err := by
  refine ⟨by decide, by decide, ?_⟩
  rintro ⟨err, h⟩
  rw [show decodeStep [0x00, 0xD8] = .ok [0xEF, 0xBF, 0xBD] from by decide] at h
  cases h

/-- Claim C5 (amended): the decoder never fails, whatever the decrypted bytes, and the steps
of `decryptObject` return text for every ciphertext; where the decoding loop meets a
surrogate code unit that is not followed by a low-surrogate code unit, it emits
U+FFFD (`EF BF BD`) for it and goes on with the bytes after it. -/
theorem unpaired_surrogate_replaced (b : List Nat) (guid : List Nat) (id subobjid : Nat)
    (lo hi : Nat) (rest : List Nat)
    (hs : IsSurrogate (readUnit .LittleEndian lo hi) = true)
    (hnext : ∀ b2 b3 rest2, rest = b2 :: b3 :: rest2 →
      isHighSurrogate (readUnit .LittleEndian b2 b3) = false) :
    (∃ text, decodeStep b = .ok text)
      ∧ (∃ text, decryptSteps guid id subobjid b = .ok text)
      ∧ transformLoop .LittleEndian (lo :: hi :: rest)
          = [0xEF, 0xBF, 0xBD] ++ transformLoop .LittleEndian rest := by
  refine ⟨⟨_, decodeStep_eq b⟩, decryptSteps_ok guid id subobjid b, ?_⟩
  rcases rest with _ | ⟨b2, _ | ⟨b3, rest2⟩⟩
  · simp [transformLoop, hs, emitRune_of_isSurrogate _ hs]
  · simp [transformLoop, hs, emitRune_of_isSurrogate _ hs]
  · simp [transformLoop, hs, emitRune_of_isSurrogate _ hs, hnext b2 b3 rest2 rfl]

/-- Claim C5 (amended) at a lone high surrogate followed by the letter `A`. -/
theorem unpaired_surrogate_replaced_witness :
    (∃ text, decodeStep [0x00, 0xD8, 0x41, 0x00] = .ok text)
      ∧ (∃ text, decryptSteps (List.replicate 16 0) 1 0 [0x00, 0xD8, 0x41, 0x00] = .ok text)
      ∧ transformLoop .LittleEndian (0x00 :: 0xD8 :: [0x41, 0x00])
          = [0xEF, 0xBF, 0xBD] ++ transformLoop .LittleEndian [0x41, 0x00] :=
  unpaired_surrogate_replaced [0x00, 0xD8, 0x41, 0x00] (List.replicate 16 0) 1 0 0x00 0xD8
    [0x41, 0x00] (by decide)
    (by
      intro b2 b3 rest2 h
      simp only [List.cons.injEq] at h
      obtain ⟨h1, h2, _⟩ := h
      subst h1 h2
      decide)

/-- Claim C6, as stated, fails: `FF FE` is the UTF-16LE form of the scalar value U+FEFF; alone
it decodes to the empty text, after a byte-order mark it decodes to U+FEFF. -/
theorem bom_before_bom_differs :
    IsScalar 0xFEFF ∧ utf16le [0xFEFF] = [0xFF, 0xFE]
      ∧ decodeStep ([0xFF, 0xFE] ++ [0xFF, 0xFE]) = .ok [0xEF, 0xBB, 0xBF]
      ∧ decodeStep [0xFF, 0xFE] = .ok []
      ∧ decodeStep ([0xFF, 0xFE] ++ [0xFF, 0xFE]) ≠ decodeStep [0xFF, 0xFE] := by
  refine ⟨by decide, by decide, by decide, by decide, by decide⟩

/-- Claim C6 (amended): for a byte sequence `b` that does not itself begin with `FF FE` or
`FE FF`, decoding `FF FE` followed by `b` gives the same result as decoding `b`; and for
every `b` the mark is consumed: the result is the little-endian decoding of `b`, which
for the UTF-16LE bytes of a text of scalar values is that text in UTF-8. -/
theorem bom_is_consumed (b : List Nat)
    (h1 : b.take 2 ≠ [0xFF, 0xFE]) (h2 : b.take 2 ≠ [0xFE, 0xFF]) :
    decodeStep ([0xFF, 0xFE] ++ b) = decodeStep b
      ∧ (∀ c, decodeStep ([0xFF, 0xFE] ++ c) = .ok (transformLoop .LittleEndian c))
      ∧ (∀ t, (∀ r ∈ t, IsScalar r) → decodeStep ([0xFF, 0xFE] ++ utf16le t) = .ok (utf8 t)) := by
  have hcons : ∀ c, decodeStep ([0xFF, 0xFE] ++ c) = .ok (transformLoop .LittleEndian c) := by
    intro c
    rw [decodeStep_eq]
    simp
  refine ⟨?_, hcons, fun t ht => by rw [hcons, transformLoop_utf16le t ht]⟩
  rw [hcons, decodeStep_eq]
  rcases b with _ | ⟨b0, _ | ⟨b1, rest⟩⟩
  · rfl
  · rfl
  · simp only [List.take_succ_cons, List.take_zero, ne_eq, List.cons.injEq, and_true] at h1 h2
    simp only [List.length_cons, show ¬ (rest.length + 1 + 1 < 2) from by omega, if_false,
      List.getD_cons_zero, List.getD_cons_succ, h1, h2]

/-- Claim C6 (amended) at the letter `A`. -/
theorem bom_is_consumed_witness :
    decodeStep ([0xFF, 0xFE] ++ [0x41, 0x00]) = decodeStep [0x41, 0x00]
      ∧ (∀ c, decodeStep ([0xFF, 0xFE] ++ c) = .ok (transformLoop .LittleEndian c))
      ∧ (∀ t, (∀ r ∈ t, IsScalar r) → decodeStep ([0xFF, 0xFE] ++ utf16le t) = .ok (utf8 t)) :=
  bom_is_consumed [0x41, 0x00] (by decide) (by decide)


/-- Claim C7, as stated, fails: with a `family_guid` that scans as an empty byte slice the
pipeline runs to the end and prints the fixture text; the key was derived from the
zero-filled buffer. -/
theorem short_guid_is_not_rejected :
    dbNullGUID.familyGUID = .ok [] ∧ ([] : List Nat).length ≠ 16
      ∧ pipeline dbNullGUID "p"
          = (.ok (utf8 fixtureText),
              [.lookupObjectId, .lookupFamilyGUID, .lookupPayload, .deriveKey, .rc4, .decode]) := by
  refine ⟨rfl, by decide, ?_⟩
  have hkey : keyBuffer [] 1 0 = keyBuffer (List.replicate 16 0) 1 0 := by decide
  have hdec : decryptSteps [] 1 0 fixtureBlob = .ok (utf8 fixtureText) :=
    decryptSteps_of_encrypted [] 1 0 fixtureText fixtureBlob (by decide) (by decide)
      (by rw [hkey]; exact fixture_encrypted)
  have hrow : dbNullGUID.sysobjvalues 1 = .ok (fixtureBlob, 0) := rfl
  have hobj : decryptObject dbNullGUID [] 1 [.lookupObjectId, .lookupFamilyGUID]
      = (.ok (utf8 fixtureText),
          [.lookupObjectId, .lookupFamilyGUID, .lookupPayload, .deriveKey, .rc4, .decode]) := by
    rw [decryptObject_ok dbNullGUID [] 1 _ fixtureBlob 0 hrow, hdec]
    rfl
  exact hobj

/-- Claim C7 (amended): the length of the family GUID is not validated. Whatever its length,
`getDbFamilyGUID` returns the scanned value unchanged and without error, the key
buffer is made of its first 16 bytes, padded with zero bytes when it is shorter,
followed by the two ids, and when the object and its payload row exist the pipeline
ends with text, not with an error. -/
theorem family_guid_not_validated (db : DB) (name : String) (guid : List Nat) (v : Int)
    (imageval : List Nat) (subobjid : Nat)
    (hguid : db.familyGUID = .ok guid) (hobj : db.objectId name = .ok (some v))
    (hrow : db.sysobjvalues (v % 4294967296).toNat = .ok (imageval, subobjid)) :
    (∀ log, getDbFamilyGUID db log = (.ok guid, log ++ [.lookupFamilyGUID]))
      ∧ keyBuffer guid (v % 4294967296).toNat subobjid
          = (guid.take 16 ++ List.replicate (16 - guid.length) 0)
              ++ PutUint32 (v % 4294967296).toNat ++ PutUint16 subobjid
      ∧ ∃ text, decryptSteps guid (v % 4294967296).toNat subobjid imageval = .ok text
          ∧ pipeline db name
              = (.ok text, [.lookupObjectId, .lookupFamilyGUID, .lookupPayload, .deriveKey,
                  .rc4, .decode]) := by
  have hget : ∀ log, getDbFamilyGUID db log = (.ok guid, log ++ [.lookupFamilyGUID]) := by
    intro log
    simp only [getDbFamilyGUID, hguid]
  obtain ⟨text, htext⟩ := decryptSteps_ok guid (v % 4294967296).toNat subobjid imageval
  refine ⟨hget, keyBuffer_eq_general _ _ _, text, htext, ?_⟩
  simp only [pipeline, getObjectID, hobj, hget,
    decryptObject_ok db guid _ _ imageval subobjid hrow, htext]
  rfl

/-- Claim C7 (amended) at a database whose family GUID scans as an empty slice. -/
theorem family_guid_not_validated_witness :
    (∀ log, getDbFamilyGUID dbNullGUID log = (.ok [], log ++ [.lookupFamilyGUID]))
      ∧ keyBuffer [] ((1 : Int) % 4294967296).toNat 0
          = ((([] : List Nat).take 16) ++ List.replicate (16 - ([] : List Nat).length) 0)
              ++ PutUint32 ((1 : Int) % 4294967296).toNat ++ PutUint16 0
      ∧ ∃ text, decryptSteps [] ((1 : Int) % 4294967296).toNat 0 fixtureBlob = .ok text
          ∧ pipeline dbNullGUID "p"
              = (.ok text, [.lookupObjectId, .lookupFamilyGUID, .lookupPayload, .deriveKey,
                  .rc4, .decode]) :=
  family_guid_not_validated dbNullGUID "p" [] 1 fixtureBlob 0 rfl rfl rfl

/-- Claim C8: when `OBJECT_ID` is `NULL` for the name, `getObjectID` returns the error
`object name invalid or not found`, and the pipeline stops with that error after the
object-id query alone: no family-GUID query, no payload query, no key derivation, no
RC4 and no decoding has run. -/
theorem missing_object_stops_pipeline (db : DB) (name : String)
    (h : db.objectId name = .ok none) :
    (∀ log, getObjectID db name log = (.error .objectNotFound, log ++ [.lookupObjectId]))
      ∧ pipeline db name = (.error .objectNotFound, [.lookupObjectId]) := by
  have hget : ∀ log, getObjectID db name log
      = (.error .objectNotFound, log ++ [.lookupObjectId]) := by
    intro log
    simp only [getObjectID, h]
  refine ⟨hget, ?_⟩
  simp only [pipeline, hget]
  rfl

/-- Claim C8 at a database in which no name resolves. -/
theorem missing_object_stops_pipeline_witness :
    (∀ log, getObjectID dbNoObject "p" log = (.error .objectNotFound, log ++ [.lookupObjectId]))
      ∧ pipeline dbNoObject "p" = (.error .objectNotFound, [.lookupObjectId]) :=
  missing_object_stops_pipeline dbNoObject "p" rfl


end MSSQLDecryptor
